import Mathlib

/-!
Shallow embedding of `src/grab_archive.py` (Arcade-Archiver) together with
proofs settling the frozen claims C1 .. C10 about that program.

Modelling conventions:
* Python strings are Lean `String`s; character-level helpers work on
  `String.data` so that every definition evaluates inside the kernel.
* Filesystem and network effects are made explicit: each embedded function
  returns the list of effects/events it performs together with its result,
  and the network is an oracle argument describing what the server answers
  to each request of each attempt.
* Python integers are unbounded, so sizes and counters are `Nat`.
* A Python function that can raise returns an `Option` error alongside its
  effects; `none` means it returned normally.
-/

namespace GrabArchive

/-- Boolean membership of a string in a list of strings; the embedding of the
Python `x in seen` test (string equality). -/
def memStr (x : String) : List String → Bool
  | [] => false
  | y :: ys => x == y || memStr x ys

/-- Split a list of characters at every occurrence of `sep`, keeping empty
components (the behaviour of `str.split(sep)` in Python). `cur` is the
reversed current component. -/
def splitCharAux (sep : Char) : List Char → List Char → List (List Char)
  | [], cur => [cur.reverse]
  | c :: rest, cur =>
    if c = sep then cur.reverse :: splitCharAux sep rest []
    else splitCharAux sep rest (c :: cur)

/-- Split a string on a separator character. -/
def splitChar (sep : Char) (s : String) : List String :=
  (splitCharAux sep s.data []).map String.mk

/-- Whether the string starts with a `/`; the embedding of
`PurePosixPath(s).is_absolute()` used at line 143 of `grab_archive.py`. -/
def pathIsAbsolute (s : String) : Bool :=
  match s.data with
  | '/' :: _ => true
  | _ => false

/-- The embedding of `pathlib.PurePosixPath(s).parts`: the `/`-separated
components with empty and `.` components dropped, preceded by a root marker
`/` when the path is absolute. -/
def pathParts (s : String) : List String :=
  let comps := (splitChar '/' s).filter (fun c => !(c == "") && !(c == "."))
  if pathIsAbsolute s then "/" :: comps else comps

/-- The per-member test of `safe_extract_zip` (line 143):
`p.is_absolute() or ".." in p.parts`. -/
def suspiciousMember (s : String) : Bool :=
  pathIsAbsolute s || memStr ".." (pathParts s)

/-- The validation loop of `safe_extract_zip` (lines 141-144): return the
first member whose stored path is suspicious, or `none` if all pass. -/
def checkMembers : List String → Option String
  | [] => none
  | m :: rest => if suspiciousMember m then some m else checkMembers rest

/-- Filesystem effects performed by `safe_extract_zip`: creating the target
directory (with parents, `exist_ok`) and the collaborator call
`zf.extractall(path=extract_dir)` that writes every entry. -/
inductive FsEffect where
  | mkdirTree (dir : String)
  | extractAll (dir : String) (entries : List String)
deriving DecidableEq

/-- The embedding of `safe_extract_zip` (lines 137-145), parameterised by the
list of stored entry paths of the archive (`[m.filename for m in zf.infolist()]`).
It returns the filesystem effects performed, and `some m` when it raised
`RuntimeError` at the suspicious member `m` (else `none`). The code runs
`extract_dir.mkdir(parents=True, exist_ok=True)` first, then validates every
member, and only then calls `zf.extractall`. -/
def safe_extract_zip (entries : List String) (extract_dir : String) :
    List FsEffect × Option String :=
  match checkMembers entries with
  | some m => ([FsEffect.mkdirTree extract_dir], some m)
  | none => ([FsEffect.mkdirTree extract_dir, FsEffect.extractAll extract_dir entries], none)

theorem checkMembers_none_iff (l : List String) :
    checkMembers l = none ↔ ∀ m ∈ l, suspiciousMember m = false := by
  induction l with
  | nil => simp [checkMembers]
  | cons m rest ih =>
    cases h : suspiciousMember m with
    | true =>
      constructor
      · intro hc
        simp [checkMembers, h] at hc
      · intro hall
        have hm := hall m (List.mem_cons_self m rest)
        simp [h] at hm
    | false =>
      constructor
      · intro hc x hx
        rcases List.mem_cons.mp hx with rfl | hx'
        · exact h
        · have hrest : checkMembers rest = none := by
            simpa [checkMembers, h] using hc
          exact ih.mp hrest x hx'
      · intro hall
        have hrest : checkMembers rest = none :=
          ih.mpr (fun x hx => hall x (List.mem_cons_of_mem _ hx))
        simp [checkMembers, h, hrest]

/-- C1: safe extraction first validates the stored path of every entry; if any
entry path is absolute or contains a `..` segment the whole operation is
rejected (it raises) and no extraction effect is performed, while the
`extractall` expansion effect happens only when every entry passed the
validation. -/
theorem c1_validate_all_before_extract (entries : List String) (dir : String) :
    ((∃ m ∈ entries, suspiciousMember m = true) →
        (safe_extract_zip entries dir).2 ≠ none ∧
        ∀ d es, FsEffect.extractAll d es ∉ (safe_extract_zip entries dir).1) ∧
    ((safe_extract_zip entries dir).2 = none →
        (∀ m ∈ entries, suspiciousMember m = false) ∧
        FsEffect.extractAll dir entries ∈ (safe_extract_zip entries dir).1) := by
  constructor
  · rintro ⟨m, hm, hsusp⟩
    cases hcm : checkMembers entries with
    | none =>
      have := (checkMembers_none_iff entries).mp hcm m hm
      rw [hsusp] at this
      exact absurd this (by simp)
    | some w =>
      refine ⟨?_, ?_⟩
      · simp [safe_extract_zip, hcm]
      · intro d es
        simp [safe_extract_zip, hcm]
  · intro hnone
    cases hcm : checkMembers entries with
    | some w => simp [safe_extract_zip, hcm] at hnone
    | none =>
      refine ⟨(checkMembers_none_iff entries).mp hcm, ?_⟩
      simp [safe_extract_zip, hcm]

/-- Witness for C1 at the concrete traversal archive of the spec:
an archive containing `../../etc/passwd` is rejected and no extraction
effect is performed. -/
theorem c1_validate_all_before_extract_witness :
    (safe_extract_zip [ "../../etc/passwd" ] "out").2 ≠ none ∧
    ∀ d es, FsEffect.extractAll d es ∉ (safe_extract_zip [ "../../etc/passwd" ] "out").1 :=
  (c1_validate_all_before_extract [ "../../etc/passwd" ] "out").1
    ⟨ "../../etc/passwd", by decide, by decide⟩

/-- C10: `safe_extract_zip` creates the target directory before validating the
entries, so its very first effect is always the `mkdir`; when the archive is
rejected for a suspicious path, the created directory is the only effect
performed (nothing else on disk changes). -/
theorem c10_mkdir_precedes_validation (entries : List String) (dir : String) :
    (safe_extract_zip entries dir).1.head? = some (FsEffect.mkdirTree dir) ∧
    ((∃ m ∈ entries, suspiciousMember m = true) →
        (safe_extract_zip entries dir).1 = [FsEffect.mkdirTree dir] ∧
        (safe_extract_zip entries dir).2 ≠ none) := by
  constructor
  · cases hcm : checkMembers entries with
    | some w => simp [safe_extract_zip, hcm]
    | none => simp [safe_extract_zip, hcm]
  · rintro ⟨m, hm, hsusp⟩
    cases hcm : checkMembers entries with
    | none =>
      have := (checkMembers_none_iff entries).mp hcm m hm
      rw [hsusp] at this
      exact absurd this (by simp)
    | some w =>
      refine ⟨?_, ?_⟩
      · simp [safe_extract_zip, hcm]
      · simp [safe_extract_zip, hcm]

/-- Witness for C10: a rejected traversal archive leaves exactly the freshly
created extraction directory behind. -/
theorem c10_mkdir_precedes_validation_witness :
    (safe_extract_zip [ "../../etc/passwd" ] "out").1 = [FsEffect.mkdirTree "out"] ∧
    (safe_extract_zip [ "../../etc/passwd" ] "out").2 ≠ none :=
  (c10_mkdir_precedes_validation [ "../../etc/passwd" ] "out").2
    ⟨ "../../etc/passwd", by decide, by decide⟩

/-! ### Resumable downloader (`download_with_resume`, lines 72-134)

The downloader touches two files: the staging file `tmp = dest + ".part"` and
the final file `dest`; only their sizes matter to the claims, so the
filesystem state carries the two optional sizes. The network is an oracle:
for every attempt number it says what the `HEAD` request reported and how the
`GET` stream went. -/

/-- Sizes of the staging file (`tmp`, the `.part` file) and of the final
destination file; `none` means the file does not exist. -/
structure FS where
  tmp : Option Nat
  final : Option Nat
deriving DecidableEq

/-- How the `GET` of one attempt went:
* `connFail` — `urllib.request.urlopen` itself raised, the staging file was
  never opened;
* `readFail w` — the stream raised after `w` bytes had been appended;
* `ok cl d` — the stream ended normally after delivering `d` bytes, with the
  response header `Content-Length` equal to `cl`. -/
inductive GetOutcome where
  | connFail
  | readFail (written : Nat)
  | ok (contentLength : Option Nat) (delivered : Nat)
deriving DecidableEq

/-- The server behaviour seen by one attempt. `headTotal = none` means the
`HEAD` request raised (caught at line 86-87, leaving `total_size = None`);
`headTotal = some cl` means it succeeded and `cl` is the optional
`Content-Length` it reported. -/
structure AttemptEnv where
  headTotal : Option (Option Nat)
  get : GetOutcome
deriving DecidableEq

/-- The errors an attempt can raise: any network/transport exception, or the
`IOError("Download incomplete (size mismatch)")` of line 124. -/
inductive DlErr where
  | netError
  | sizeMismatch (actual total : Nat)
deriving DecidableEq

/-- Observable events of the downloader: the `HEAD` request, the `GET`
request together with the offset of its `Range` header (`none` = no `Range`
header, the transfer starts at offset 0), the promotion `tmp.replace(dest)`
of a staging file of the given size, and `time.sleep` of the given seconds. -/
inductive Ev where
  | headReq
  | getReq (rangeStart : Option Nat)
  | promote (size : Nat)
  | sleep (secs : Nat)
deriving DecidableEq

/-- Python truthiness of the `total_size : Optional[int]` value: `None` and
`0` are falsy. -/
def optTruthy : Option Nat → Bool
  | some n => n != 0
  | none => false

/-- One iteration of the `while True` loop body of `download_with_resume`
(lines 79-127), given the server behaviour `env` of this attempt and the
current file state. Returns the new file state, the events of the attempt,
and `some e` when the body raised (caught at line 129), `none` when it
executed one of the two `return` statements.

Line-by-line correspondence:
* `existing` — line 80; `total_size` from the guarded `HEAD` — lines 81-87;
* the early promotion `if existing and total_size and existing >= total_size`
  — lines 89-91 (Python truthiness: `existing` nonzero, `total_size` not
  `None` and nonzero);
* `Range` header iff `existing` is nonzero — lines 93-95;
* the `GET` and the chunked copy — lines 98-121; when `total_size` is `None`
  and the response carries a `Content-Length`, `total_size` becomes
  `existing + cl` — lines 99-102;
* the size check `if total_size and tmp.stat().st_size != total_size` —
  lines 123-124; the final promotion — line 125. -/
def attemptStep (env : AttemptEnv) (fs : FS) : FS × List Ev × Option DlErr :=
  let existing := fs.tmp.getD 0
  let total0 : Option Nat := env.headTotal.getD none
  if existing != 0 && optTruthy total0 && decide (total0.getD 0 ≤ existing) then
    ({ tmp := none, final := some existing }, [Ev.headReq, Ev.promote existing], none)
  else
    let range : Option Nat := if existing != 0 then some existing else none
    match env.get with
    | GetOutcome.connFail =>
        (fs, [Ev.headReq, Ev.getReq range], some DlErr.netError)
    | GetOutcome.readFail w =>
        ({ fs with tmp := some (existing + w) }, [Ev.headReq, Ev.getReq range],
          some DlErr.netError)
    | GetOutcome.ok cl d =>
        let total1 : Option Nat :=
          match total0 with
          | none => (match cl with | some n => some (existing + n) | none => none)
          | some t => some t
        let tmpNow := existing + d
        if optTruthy total1 && decide (tmpNow ≠ total1.getD 0) then
          ({ fs with tmp := some tmpNow }, [Ev.headReq, Ev.getReq range],
            some (DlErr.sizeMismatch tmpNow (total1.getD 0)))
        else
          ({ tmp := none, final := some tmpNow },
            [Ev.headReq, Ev.getReq range, Ev.promote tmpNow], none)

/-- The retry loop of `download_with_resume`. The Python loop counts
`attempt = 1, 2, ...` and, when the body raises, re-raises once
`attempt >= retries` and otherwise sleeps `2 ** attempt` seconds and retries;
`remaining = retries - attempt` (truncated subtraction) is the number of
retries still allowed, which decreases by exactly one per failed attempt, so
the loop is the following structural recursion on `remaining`. -/
def downloadGo (envs : Nat → AttemptEnv) : Nat → Nat → FS → FS × List Ev × Option DlErr
  | attempt, remaining, fs =>
    let r := attemptStep (envs attempt) fs
    match r.2.2 with
    | none => r
    | some _ =>
      match remaining with
      | 0 => r
      | rem + 1 =>
        let rest := downloadGo envs (attempt + 1) rem r.1
        (rest.1, r.2.1 ++ (Ev.sleep (2 ^ attempt) :: rest.2.1), rest.2.2)

/-- The embedding of `download_with_resume` (lines 72-134): run the loop from
attempt 1 with `retries - 1` retries still allowed (default `retries = 3`). -/
def download_with_resume (envs : Nat → AttemptEnv) (retries : Nat) (fs : FS) :
    FS × List Ev × Option DlErr :=
  downloadGo envs 1 (retries - 1) fs

/-- Every promotion an attempt performs when `HEAD` declared a nonzero total
`T` promotes a staging file of at least `T` bytes. -/
theorem attemptStep_promote_ge (env : AttemptEnv) (fs : FS) (T s : Nat)
    (hT : env.headTotal = some (some T)) (hpos : 0 < T)
    (hmem : Ev.promote s ∈ (attemptStep env fs).2.1) : T ≤ s := by
  obtain ⟨ht, g⟩ := env
  simp only at hT
  subst hT
  unfold attemptStep at hmem
  dsimp only at hmem
  simp only [Option.getD_some] at hmem
  split at hmem
  next h1 =>
    simp at hmem
    simp [optTruthy] at h1
    omega
  next h1 =>
    cases g with
    | connFail => simp at hmem
    | readFail w => simp at hmem
    | ok cl d =>
      dsimp only at hmem
      split at hmem
      next h2 => simp at hmem
      next h2 =>
        simp at hmem
        simp [optTruthy] at h2
        have hTne : T ≠ 0 := Nat.pos_iff_ne_zero.mp hpos
        have := h2 hTne
        omega

/-- When the `GET` stream of an attempt ended normally but the attempt still
raised, the error is the size mismatch and the appended staging file is left
in place (it now holds `existing + d` bytes) while the final file is
untouched. -/
theorem attemptStep_mismatch_keeps_tmp (env : AttemptEnv) (fs : FS) (cl : Option Nat)
    (d : Nat) (hget : env.get = GetOutcome.ok cl d)
    (herr : (attemptStep env fs).2.2 ≠ none) :
    (attemptStep env fs).1.tmp = some (fs.tmp.getD 0 + d) ∧
    (attemptStep env fs).1.final = fs.final ∧
    (∃ t, (attemptStep env fs).2.2 = some (DlErr.sizeMismatch (fs.tmp.getD 0 + d) t)) := by
  obtain ⟨ht, g⟩ := env
  simp only at hget
  subst hget
  unfold attemptStep at herr ⊢
  dsimp only at herr ⊢
  split at herr
  next h1 => simp at herr
  next h1 =>
    rw [if_neg h1]
    split at herr
    next h2 =>
      rw [if_pos h2]
      exact ⟨rfl, rfl, _, rfl⟩
    next h2 => simp at herr

theorem downloadGo_promote_ge (envs : Nat → AttemptEnv) (T : Nat)
    (hT : ∀ n, (envs n).headTotal = some (some T)) (hpos : 0 < T) :
    ∀ remaining attempt fs s,
      Ev.promote s ∈ (downloadGo envs attempt remaining fs).2.1 → T ≤ s := by
  intro remaining
  induction remaining with
  | zero =>
    intro attempt fs s hmem
    unfold downloadGo at hmem
    cases h : (attemptStep (envs attempt) fs).2.2 with
    | none =>
      simp only [h] at hmem
      exact attemptStep_promote_ge (envs attempt) fs T s (hT attempt) hpos hmem
    | some err =>
      simp only [h] at hmem
      exact attemptStep_promote_ge (envs attempt) fs T s (hT attempt) hpos hmem
  | succ rem ih =>
    intro attempt fs s hmem
    unfold downloadGo at hmem
    cases h : (attemptStep (envs attempt) fs).2.2 with
    | none =>
      simp only [h] at hmem
      exact attemptStep_promote_ge (envs attempt) fs T s (hT attempt) hpos hmem
    | some err =>
      simp only [h, List.mem_append, List.mem_cons] at hmem
      rcases hmem with hmem | hmem | hmem
      · exact attemptStep_promote_ge (envs attempt) fs T s (hT attempt) hpos hmem
      · exact absurd hmem (by simp)
      · exact ih (attempt + 1) _ s hmem

/-- The events of the first attempt all occur in the trace of the whole run. -/
theorem download_mem_first_attempt (envs : Nat → AttemptEnv) (retries : Nat) (fs : FS)
    (e : Ev) (hmem : e ∈ (attemptStep (envs 1) fs).2.1) :
    e ∈ (download_with_resume envs retries fs).2.1 := by
  unfold download_with_resume downloadGo
  cases h : (attemptStep (envs 1) fs).2.2 with
  | none => simp only [h]; exact hmem
  | some err =>
    cases hr : retries - 1 with
    | zero => simp only [h, hr]; exact hmem
    | succ rem =>
      simp only [h, hr]
      exact List.mem_append_left _ hmem

/-- When the staging file holds `N` bytes and `HEAD` reported a nonzero total
`T ≤ N`, the attempt takes the lines 89-91 path: promote immediately, no GET. -/
theorem attemptStep_early_promote (env : AttemptEnv) (fs : FS) (N T : Nat)
    (htmp : fs.tmp = some N) (hT : env.headTotal = some (some T))
    (hTpos : 0 < T) (hge : T ≤ N) :
    attemptStep env fs =
      ({ tmp := none, final := some N }, [Ev.headReq, Ev.promote N], none) := by
  obtain ⟨ht, g⟩ := env
  simp only at hT
  subst hT
  unfold attemptStep
  rw [htmp]
  simp only [Option.getD_some]
  have hcond : ((N != 0) && optTruthy (some T) && decide (T ≤ N)) = true := by
    simp [optTruthy]
    omega
  simp [hcond]

/-- When the staging file holds `0 < N < T` bytes of a HEAD-declared total
`T`, the attempt issues the ranged GET from offset `N`; and if its stream
ended with the attempt returning normally, the promoted final file holds
exactly `T` bytes, the stream having delivered exactly the remaining
`T - N`. -/
theorem attemptStep_partial_getReq (env : AttemptEnv) (fs : FS) (N T : Nat)
    (htmp : fs.tmp = some N) (hN : 0 < N) (hT : env.headTotal = some (some T))
    (hlt : N < T) :
    Ev.getReq (some N) ∈ (attemptStep env fs).2.1 ∧
    (∀ cl d, env.get = GetOutcome.ok cl d → (attemptStep env fs).2.2 = none →
        (attemptStep env fs).1.final = some T ∧ N + d = T) := by
  obtain ⟨ht, g⟩ := env
  simp only at hT
  subst hT
  unfold attemptStep
  rw [htmp]
  simp only [Option.getD_some]
  have hNne : (N != 0) = true := by simp; omega
  split
  next h1 =>
    exfalso
    simp [optTruthy] at h1
    omega
  next h1 =>
    constructor
    · cases g with
      | connFail => simp [hNne]
      | readFail w => simp [hNne]
      | ok cl d =>
        dsimp only
        split
        · simp [hNne]
        · simp [hNne]
    · intro cl d hg hres
      subst hg
      try dsimp only at hres ⊢
      try simp only [Option.getD_some] at hres ⊢
      split at hres
      next h2 => exact absurd hres (by simp)
      next h2 =>
        have hTne : T ≠ 0 := by omega
        have heq : N + d = T := by
          by_contra hne
          exact h2 (by simp [optTruthy, hTne, hne])
        rw [if_neg h2]
        exact ⟨by simp [heq], heq⟩

/-- When no staging file exists, the GET carries no Range header, i.e. the
transfer starts at offset 0. -/
theorem attemptStep_fresh_getReq (env : AttemptEnv) (fs : FS)
    (htmp : fs.tmp = none) :
    Ev.getReq none ∈ (attemptStep env fs).2.1 := by
  obtain ⟨ht, g⟩ := env
  unfold attemptStep
  rw [htmp]
  simp only [Option.getD_none]
  split
  next h1 => simp at h1
  next h1 =>
    cases g with
    | connFail => simp
    | readFail w => simp
    | ok cl d =>
      dsimp only
      split
      · simp
      · simp

/-- C2 (amended): a staging file SMALLER than the declared nonzero total is
never promoted to the destination path — every promotion event of the whole
run promotes at least the declared total (the pre-check of lines 89-91 also
promotes an oversized staging file, which is why "does not match exactly"
had to be weakened to "is smaller") — and an attempt whose stream ended but
whose resulting staging size differs from the known total raises the
size-mismatch transport fault, leaving the staging file in place (with all
its bytes) and the final destination untouched, ready for the next attempt. -/
theorem c2_undersized_staging_never_promoted (envs : Nat → AttemptEnv)
    (retries : Nat) (fs : FS) (T : Nat)
    (hT : ∀ n, (envs n).headTotal = some (some T)) (hpos : 0 < T) :
    (∀ s, Ev.promote s ∈ (download_with_resume envs retries fs).2.1 → T ≤ s) ∧
    (∀ env fs' cl d, env.get = GetOutcome.ok cl d →
        (attemptStep env fs').2.2 ≠ none →
        (attemptStep env fs').1.tmp = some (fs'.tmp.getD 0 + d) ∧
        (attemptStep env fs').1.final = fs'.final) :=
  ⟨fun s h => downloadGo_promote_ge envs T hT hpos _ _ _ s h,
   fun env fs' cl d hg he =>
     ⟨(attemptStep_mismatch_keeps_tmp env fs' cl d hg he).1,
      (attemptStep_mismatch_keeps_tmp env fs' cl d hg he).2.1⟩⟩

/-- Witness for C2 (amended) at a concrete run: declared total 10, staging
file of 3 bytes, a stream delivering only 4 of the remaining bytes; the
attempt fails with the mismatch and the staging file keeps its 7 bytes while
no final file appears. -/
theorem c2_undersized_staging_never_promoted_witness :
    (attemptStep ⟨some (some 10), GetOutcome.ok none 4⟩ ⟨some 3, none⟩).1.tmp = some 7 ∧
    (attemptStep ⟨some (some 10), GetOutcome.ok none 4⟩ ⟨some 3, none⟩).1.final = none := by
  have h := (c2_undersized_staging_never_promoted
      (fun _ => ⟨some (some 10), GetOutcome.ok none 4⟩) 1 ⟨some 3, none⟩ 10
      (fun _ => rfl) (by omega)).2
  have h2 := h ⟨some (some 10), GetOutcome.ok none 4⟩ ⟨some 3, none⟩ none 4 rfl (by decide)
  exact ⟨h2.1, h2.2⟩

/-- Counterexample to C2 as stated: with a declared total of 100 bytes and a
staging file of 150 bytes, the pre-check of lines 89-91 renames the staging
file to the destination and reports success, although its size does not
match the declared total. -/
theorem c2_counterexample :
    (download_with_resume (fun _ => ⟨some (some 100), GetOutcome.connFail⟩) 3
        ⟨some 150, none⟩).1.final = some 150 ∧
    Ev.promote 150 ∈ (download_with_resume (fun _ => ⟨some (some 100), GetOutcome.connFail⟩) 3
        ⟨some 150, none⟩).2.1 ∧
    (download_with_resume (fun _ => ⟨some (some 100), GetOutcome.connFail⟩) 3
        ⟨some 150, none⟩).2.2 = none ∧
    (150 : Nat) ≠ 100 := by decide

/-- C4: when the staging file already holds `0 < N` bytes of a known
HEAD-declared total `T` (the partial case `N < T`; `N ≥ T` is the
already-complete path settled with C5), the run issues the GET with a Range
header starting at offset `N`, and an attempt whose stream then completes
successfully promotes a final file of exactly `T` bytes, the stream having
delivered exactly the remaining `T - N` bytes; when no staging file exists
the GET carries no Range header, i.e. the transfer starts at offset 0. -/
theorem c4_ranged_resume_yields_total (envs : Nat → AttemptEnv) (retries : Nat)
    (fs : FS) (N T : Nat) (htmp : fs.tmp = some N) (hN : 0 < N)
    (hT : (envs 1).headTotal = some (some T)) (hlt : N < T) :
    (Ev.getReq (some N) ∈ (download_with_resume envs retries fs).2.1) ∧
    (∀ cl d, (envs 1).get = GetOutcome.ok cl d →
        (attemptStep (envs 1) fs).2.2 = none →
        (attemptStep (envs 1) fs).1.final = some T ∧ N + d = T) ∧
    (∀ envs' retries' fs', fs'.tmp = (none : Option Nat) →
        Ev.getReq none ∈ (download_with_resume envs' retries' fs').2.1) := by
  have hp := attemptStep_partial_getReq (envs 1) fs N T htmp hN hT hlt
  refine ⟨download_mem_first_attempt envs retries fs _ hp.1, hp.2, ?_⟩
  intro envs' retries' fs' htmp'
  exact download_mem_first_attempt envs' retries' fs' _
    (attemptStep_fresh_getReq (envs' 1) fs' htmp')

/-- Witness for C4: staging file of 3 of 10 bytes, the server delivering the
remaining 7: the ranged GET from offset 3 occurs and the final file holds
exactly 10 bytes. -/
theorem c4_ranged_resume_yields_total_witness :
    (Ev.getReq (some 3) ∈ (download_with_resume
        (fun _ => ⟨some (some 10), GetOutcome.ok none 7⟩) 3 ⟨some 3, none⟩).2.1) ∧
    ((attemptStep ⟨some (some 10), GetOutcome.ok none 7⟩ ⟨some 3, none⟩).1.final = some 10 ∧
      3 + 7 = 10) ∧
    (Ev.getReq none ∈ (download_with_resume
        (fun _ => ⟨some (some 10), GetOutcome.ok none 7⟩) 3 ⟨none, none⟩).2.1) := by
  have h := c4_ranged_resume_yields_total
    (fun _ => ⟨some (some 10), GetOutcome.ok none 7⟩) 3 ⟨some 3, none⟩ 3 10
    rfl (by omega) rfl (by omega)
  exact ⟨h.1, h.2.1 none 7 rfl (by decide),
    h.2.2 (fun _ => ⟨some (some 10), GetOutcome.ok none 7⟩) 3 ⟨none, none⟩ rfl⟩

/-- C5 (amended): when the staging file exists with `N` bytes and the first
attempt's HEAD reports a NONZERO known total `T` with `N ≥ T`, no GET is
issued at all: the entire run is the HEAD followed by the immediate rename
of the staging file to the destination, reported as success. (The
counterexample shows the nonzero requirement is forced on the code: a
declared total of 0 fails Python truthiness at line 89.) -/
theorem c5_complete_staging_promoted_without_transfer
    (envs : Nat → AttemptEnv) (retries : Nat) (fs : FS) (N T : Nat)
    (htmp : fs.tmp = some N) (hT : (envs 1).headTotal = some (some T))
    (hTpos : 0 < T) (hge : T ≤ N) :
    download_with_resume envs retries fs =
      ({ tmp := none, final := some N }, [Ev.headReq, Ev.promote N], none) := by
  have hstep := attemptStep_early_promote (envs 1) fs N T htmp hT hTpos hge
  unfold download_with_resume downloadGo
  rw [hstep]

/-- Witness for C5 (amended): staging file of 12 bytes, declared total 10:
the run is exactly the HEAD and the promotion, with success. -/
theorem c5_complete_staging_promoted_without_transfer_witness :
    download_with_resume (fun _ => ⟨some (some 10), GetOutcome.connFail⟩) 3
        ⟨some 12, none⟩ =
      ({ tmp := none, final := some 12 }, [Ev.headReq, Ev.promote 12], none) :=
  c5_complete_staging_promoted_without_transfer
    (fun _ => ⟨some (some 10), GetOutcome.connFail⟩) 3 ⟨some 12, none⟩ 12 10
    rfl rfl (by omega) (by omega)

/-- Counterexample to C5 as stated: the staging file exists with 5 bytes and
the server declares a total of 0 bytes, so the staging size is greater than
or equal to the known expected total; yet the downloader still issues a
byte-transferring GET, because the truthiness test of line 89 fails for a
zero total. -/
theorem c5_counterexample :
    Ev.getReq (some 5) ∈ (download_with_resume
        (fun _ => ⟨some (some 0), GetOutcome.ok (some 0) 0⟩) 3 ⟨some 5, none⟩).2.1 ∧
    5 ≥ 0 := by decide

/-- Number of attempts recorded in a download trace: every attempt performs
exactly one HEAD request. -/
def attemptsIn (evs : List Ev) : Nat :=
  evs.countP (fun e => match e with | Ev.headReq => true | _ => false)

/-- The `time.sleep` durations recorded in a trace, in order. -/
def sleepsIn : List Ev → List Nat
  | [] => []
  | Ev.sleep w :: rest => w :: sleepsIn rest
  | Ev.headReq :: rest => sleepsIn rest
  | Ev.getReq _ :: rest => sleepsIn rest
  | Ev.promote _ :: rest => sleepsIn rest

theorem sleepsIn_append (a b : List Ev) :
    sleepsIn (a ++ b) = sleepsIn a ++ sleepsIn b := by
  induction a with
  | nil => rfl
  | cons e rest ih => cases e <;> simp [sleepsIn, ih]

/-- One attempt records exactly one HEAD request and no sleep. -/
theorem attemptStep_trace_counts (env : AttemptEnv) (fs : FS) :
    attemptsIn (attemptStep env fs).2.1 = 1 ∧ sleepsIn (attemptStep env fs).2.1 = [] := by
  obtain ⟨ht, g⟩ := env
  cases g <;> unfold attemptStep <;> dsimp only <;> split_ifs <;> exact ⟨rfl, rfl⟩

/-- A failing attempt never shrinks the staging file. -/
theorem attemptStep_err_tmp_mono (env : AttemptEnv) (fs : FS)
    (herr : (attemptStep env fs).2.2 ≠ none) :
    fs.tmp.getD 0 ≤ (attemptStep env fs).1.tmp.getD 0 := by
  obtain ⟨ht, g⟩ := env
  cases g <;> unfold attemptStep at herr ⊢ <;> (try dsimp only at herr ⊢) <;>
    split_ifs at herr ⊢ <;>
      first
        | exact le_refl _
        | exact Nat.le_add_right _ _
        | simp at herr

theorem downloadGo_zero (envs : Nat → AttemptEnv) (attempt : Nat) (fs : FS) :
    downloadGo envs attempt 0 fs = attemptStep (envs attempt) fs := by
  unfold downloadGo
  cases h : (attemptStep (envs attempt) fs).2.2 <;> simp [h]

theorem downloadGo_succ (envs : Nat → AttemptEnv) (attempt rem : Nat) (fs : FS) :
    downloadGo envs attempt (rem + 1) fs =
      match (attemptStep (envs attempt) fs).2.2 with
      | none => attemptStep (envs attempt) fs
      | some _ =>
        ((downloadGo envs (attempt + 1) rem (attemptStep (envs attempt) fs).1).1,
          (attemptStep (envs attempt) fs).2.1 ++
            (Ev.sleep (2 ^ attempt) ::
              (downloadGo envs (attempt + 1) rem (attemptStep (envs attempt) fs).1).2.1),
          (downloadGo envs (attempt + 1) rem (attemptStep (envs attempt) fs).1).2.2) := by
  conv_lhs => unfold downloadGo

/-- Bookkeeping invariant of the retry loop, by induction on the number of
retries still allowed: the loop runs at least one and at most `remaining + 1`
attempts; the recorded sleeps are exactly `2 ^ a` for the failed non-final
attempt numbers `a`; and when the loop ends in an error, every retry was
used, the staging file never shrank, and the propagated error and final
state are those of the last attempt. -/
theorem downloadGo_counts (envs : Nat → AttemptEnv) :
    ∀ remaining attempt fs,
      (1 ≤ attemptsIn (downloadGo envs attempt remaining fs).2.1 ∧
        attemptsIn (downloadGo envs attempt remaining fs).2.1 ≤ remaining + 1) ∧
      sleepsIn (downloadGo envs attempt remaining fs).2.1 =
        (List.range (attemptsIn (downloadGo envs attempt remaining fs).2.1 - 1)).map
          (fun i => 2 ^ (attempt + i)) ∧
      ((downloadGo envs attempt remaining fs).2.2 ≠ none →
        attemptsIn (downloadGo envs attempt remaining fs).2.1 = remaining + 1 ∧
        fs.tmp.getD 0 ≤ (downloadGo envs attempt remaining fs).1.tmp.getD 0 ∧
        ∃ fsL,
          (attemptStep (envs (attempt + remaining)) fsL).2.2 =
            (downloadGo envs attempt remaining fs).2.2 ∧
          (attemptStep (envs (attempt + remaining)) fsL).1 =
            (downloadGo envs attempt remaining fs).1) := by
  intro remaining
  induction remaining with
  | zero =>
    intro attempt fs
    rw [downloadGo_zero]
    obtain ⟨hc, hs⟩ := attemptStep_trace_counts (envs attempt) fs
    refine ⟨⟨by omega, by omega⟩, ?_, ?_⟩
    · rw [hc, hs]
      rfl
    · intro herr
      refine ⟨by omega, attemptStep_err_tmp_mono (envs attempt) fs herr, fs, ?_, rfl⟩
      rw [Nat.add_zero]
  | succ rem ih =>
    intro attempt fs
    rw [downloadGo_succ]
    cases h : (attemptStep (envs attempt) fs).2.2 with
    | none =>
      dsimp only
      obtain ⟨hc, hs⟩ := attemptStep_trace_counts (envs attempt) fs
      refine ⟨⟨by omega, by omega⟩, ?_, ?_⟩
      · rw [hc, hs]
        rfl
      · intro herr
        exact absurd h herr
    | some e =>
      dsimp only
      obtain ⟨hc, hs⟩ := attemptStep_trace_counts (envs attempt) fs
      obtain ⟨⟨hr1, hr2⟩, hrs, hrerr⟩ := ih (attempt + 1) (attemptStep (envs attempt) fs).1
      have hcount : attemptsIn
          ((attemptStep (envs attempt) fs).2.1 ++
            (Ev.sleep (2 ^ attempt) ::
              (downloadGo envs (attempt + 1) rem (attemptStep (envs attempt) fs).1).2.1)) =
          1 + attemptsIn (downloadGo envs (attempt + 1) rem (attemptStep (envs attempt) fs).1).2.1 := by
        unfold attemptsIn at hc ⊢
        rw [List.countP_append, hc, List.countP_cons]
        simp
      refine ⟨⟨by omega, by omega⟩, ?_, ?_⟩
      · rw [sleepsIn_append, hs, hcount]
        have hk : 1 + attemptsIn (downloadGo envs (attempt + 1) rem
            (attemptStep (envs attempt) fs).1).2.1 - 1 =
            (attemptsIn (downloadGo envs (attempt + 1) rem
              (attemptStep (envs attempt) fs).1).2.1 - 1) + 1 := by omega
        rw [hk, List.range_succ_eq_map, List.map_cons, List.map_map]
        have hone : attemptsIn (downloadGo envs (attempt + 1) rem
            (attemptStep (envs attempt) fs).1).2.1 - 1 + 1 =
            attemptsIn (downloadGo envs (attempt + 1) rem
              (attemptStep (envs attempt) fs).1).2.1 := by omega
        simp only [List.nil_append, sleepsIn, Nat.add_zero, Nat.pow_zero]
        rw [hrs]
        have hfun : ((fun i => 2 ^ (attempt + i)) ∘ Nat.succ) =
            (fun i => 2 ^ (attempt + 1 + i)) := by
          funext i
          exact congrArg (fun n => 2 ^ n) (by omega)
        rw [hfun]
      · intro herr
        have hrest := hrerr herr
        refine ⟨by omega, ?_, ?_⟩
        · have h1 := attemptStep_err_tmp_mono (envs attempt) fs (by rw [h]; simp)
          exact le_trans h1 hrest.2.1
        · obtain ⟨fsL, hL1, hL2⟩ := hrest.2.2
          have hidx : attempt + 1 + rem = attempt + (rem + 1) := by omega
          rw [hidx] at hL1 hL2
          exact ⟨fsL, hL1, hL2⟩

/-- C6: with a configured positive retry count (default 3), the retry loop
runs at most `retries` attempts in total; the sleeps it performs are exactly
`2 ^ attempt` seconds for the failed attempts `attempt = 1, 2, ...` before
the last; and when the whole download fails, all `retries` attempts were
used, the staging bytes accumulated so far were preserved across the retries
(the staging size never shrank), and the error propagated to the caller is
exactly the error raised by the last attempt. -/
theorem c6_retry_bounded_backoff_propagates (envs : Nat → AttemptEnv)
    (retries : Nat) (fs : FS) (hr : 0 < retries) :
    attemptsIn (download_with_resume envs retries fs).2.1 ≤ retries ∧
    sleepsIn (download_with_resume envs retries fs).2.1 =
      (List.range (attemptsIn (download_with_resume envs retries fs).2.1 - 1)).map
        (fun i => 2 ^ (1 + i)) ∧
    ((download_with_resume envs retries fs).2.2 ≠ none →
      attemptsIn (download_with_resume envs retries fs).2.1 = retries ∧
      fs.tmp.getD 0 ≤ (download_with_resume envs retries fs).1.tmp.getD 0 ∧
      ∃ fsL,
        (attemptStep (envs retries) fsL).2.2 = (download_with_resume envs retries fs).2.2 ∧
        (attemptStep (envs retries) fsL).1 = (download_with_resume envs retries fs).1) := by
  obtain ⟨⟨h1, h2⟩, hs, herr⟩ := downloadGo_counts envs (retries - 1) 1 fs
  have hretr : retries - 1 + 1 = retries := by omega
  have hidx : 1 + (retries - 1) = retries := by omega
  unfold download_with_resume
  refine ⟨by omega, hs, ?_⟩
  intro he
  obtain ⟨ha, hm, fsL, hL1, hL2⟩ := herr he
  rw [hidx] at hL1 hL2
  exact ⟨by omega, hm, fsL, hL1, hL2⟩

/-- Witness for C6: three attempts that all fail at connection time run
exactly 3 attempts and sleep 2 then 4 seconds between them. -/
theorem c6_retry_bounded_backoff_propagates_witness :
    attemptsIn (download_with_resume (fun _ => ⟨some (some 10), GetOutcome.connFail⟩) 3
        ⟨none, none⟩).2.1 = 3 ∧
    sleepsIn (download_with_resume (fun _ => ⟨some (some 10), GetOutcome.connFail⟩) 3
        ⟨none, none⟩).2.1 = [2, 4] := by
  have h := c6_retry_bounded_backoff_propagates
    (fun _ => ⟨some (some 10), GetOutcome.connFail⟩) 3 ⟨none, none⟩ (by omega)
  have ha := (h.2.2 (by decide)).1
  refine ⟨ha, ?_⟩
  rw [h.2.1, ha]
  decide

/-! ### Filename derivation (`main`, lines 175-186) -/

/-- Value of a hexadecimal digit, if any. -/
def hexDigitVal (c : Char) : Option Nat :=
  if '0' ≤ c ∧ c ≤ '9' then some (c.toNat - '0'.toNat)
  else if 'a' ≤ c ∧ c ≤ 'f' then some (c.toNat - 'a'.toNat + 10)
  else if 'A' ≤ c ∧ c ≤ 'F' then some (c.toNat - 'A'.toNat + 10)
  else none

/-- Decode one piece that followed a `%` in the input: two leading hex
digits become the character with that code, anything else keeps the `%`
verbatim. This mirrors the piece-wise loop of `urllib.parse.unquote`, which
splits the input on `%`. -/
def unquotePiece (piece : List Char) : List Char :=
  match piece with
  | a :: b :: rest =>
    match hexDigitVal a, hexDigitVal b with
    | some x, some y => Char.ofNat (16 * x + y) :: rest
    | _, _ => '%' :: piece
  | _ => '%' :: piece

/-- The embedding of `urllib.parse.unquote` on single-byte percent escapes:
split on `%`, decode the two hex digits that open each later piece, keep
malformed escapes verbatim. (Python additionally decodes runs of bytes above
`0x7f` as UTF-8; no claim exercises multi-byte escapes, and on ASCII escapes
the two functions agree.) -/
def unquote (s : String) : String :=
  match splitCharAux '%' s.data [] with
  | [] => s
  | first :: rest => String.mk (first ++ (rest.map unquotePiece).join)

/-- Everything before the first occurrence of `sep`; used to cut off the
fragment and the query while extracting `urlparse(url).path`. -/
def upToChar (sep : Char) : List Char → List Char
  | [] => []
  | c :: rest => if c = sep then [] else c :: upToChar sep rest

def isSchemeChar (c : Char) : Bool :=
  c.isAlphanum || c = '+' || c = '-' || c = '.'

/-- Remove a leading `scheme:` (a letter followed by letters, digits, `+`,
`-`, `.` and then a colon), as `urllib.parse.urlparse` does. -/
def dropScheme (s : List Char) : List Char :=
  match s with
  | [] => []
  | c :: _ =>
    if c.isAlpha then
      match s.drop (s.takeWhile isSchemeChar).length with
      | ':' :: r => r
      | _ => s
    else s

/-- Remove a leading `//netloc`, as `urlparse` does: after the scheme, a
double slash introduces the network location, which extends to the next
`/`, `?` or `#`. -/
def dropNetloc (s : List Char) : List Char :=
  match s with
  | '/' :: '/' :: rest => rest.dropWhile (fun c => !(c = '/' || c = '?' || c = '#'))
  | _ => s

/-- The embedding of `urllib.parse.urlparse(url).path` (a collaborator of
line 176, modelled for well-formed URLs): strip the fragment, the query, the
scheme and the netloc; what remains is the path. -/
def urlparsePath (url : String) : String :=
  String.mk (dropNetloc (dropScheme (upToChar '?' (upToChar '#' url.data))))

/-- The embedding of `os.path.basename` on POSIX paths: everything after the
last slash. -/
def basename (p : String) : String :=
  (splitChar '/' p).getLastD ""

/-- The whitespace characters removed by Python `str.strip()`. -/
def isStripSpace (c : Char) : Bool :=
  c = ' ' || c = '\t' || c = '\n' || c = '\r' || c = '\x0b' || c = '\x0c'

def stripStr (s : String) : String :=
  String.mk (((s.data.dropWhile isStripSpace).reverse.dropWhile isStripSpace).reverse)

/-- The characters removed by the sanitisation of lines 180-181:
`invalid = <>:"backslash|?*`. -/
def invalidFnameChars : List Char := ['<', '>', ':', '"', '\\', '|', '?', '*']

/-- Line 176-177 of `main`: the decoded filename
`unquote(os.path.basename(urlparse(url).path))`. -/
def decodedNameOfUrl (url : String) : String :=
  unquote (basename (urlparsePath url))

/-- Lines 180-181 of `main`: drop the invalid characters, then strip. -/
def sanitizeFileName (fname : String) : String :=
  stripStr (String.mk (fname.data.filter (fun c => !(invalidFnameChars.contains c))))

/-- The sanitised filename `safe_fname` derived from a URL in `main`. -/
def sanitizedNameOfUrl (url : String) : String :=
  sanitizeFileName (decodedNameOfUrl url)

/-- The embedding of the `pathlib` `/` join of line 186: an absolute right
operand replaces the left one. -/
def pathJoin (a b : String) : String :=
  if pathIsAbsolute b then b else a ++ "/" ++ b

/-- Index of the last dot in a list of characters. -/
def lastDotIdx (l : List Char) : Option Nat :=
  match l.reverse.findIdx? (fun c => c = '.') with
  | some j => some (l.length - 1 - j)
  | none => none

/-- The embedding of `pathlib.PurePath(name).stem` for one path component:
the name without its final suffix, where a dot that is leading or trailing
does not start a suffix. -/
def stem (name : String) : String :=
  match lastDotIdx name.data with
  | some i => if 0 < i ∧ i + 1 < name.data.length then String.mk (name.data.take i) else name
  | none => name

/-! ### Orchestrator (`main`, lines 148-211) -/

/-- The parsed CLI arguments of lines 150-157. -/
structure Args where
  baseUrl : String
  dest : String
  skipExisting : Bool
  forceReextract : Bool

/-- Per-URL oracle: what the filesystem and the collaborator calls answer
for this URL. `zipExists` is `zip_path.exists()` (line 188); `downloadOk` is
whether `download_with_resume` returned normally (line 192);
`extractDirExists` is `extract_dir.exists()` (lines 198 and 202);
`extractOk` is whether `safe_extract_zip` returned normally (line 208). -/
structure UrlEnv where
  zipExists : Bool
  downloadOk : Bool
  extractDirExists : Bool
  extractOk : Bool

/-- Observable events of `main`, in program order: the scan banner, the
fatal discovery error, the empty report, the found count, the per-URL
messages, the invocation of the downloader with its target path, and the
extraction phase messages. -/
inductive MainEv where
  | scanIndex (base : String)
  | errorDiscovery
  | noFiles
  | foundCount (n : Nat)
  | invalidFilename (fname : String)
  | skippedExisting (name : String)
  | downloadStart (url : String) (path : String)
  | downloadFailed (name : String)
  | alreadyExtracted (dir : String)
  | cleanFolder (dir : String)
  | extractCall (zip : String) (dir : String)
  | extractError (name : String)
  | extracted (dir : String)
deriving DecidableEq

/-- Lines 197-211: the extraction phase for one URL, reached only when the
zip file is in place; `zip_path.stem` is the stem of the last component of
the joined path, hence `stem (basename safe_fname)`. -/
def extractPhase (args : Args) (env : UrlEnv) (zip_path safe_fname : String) :
    List MainEv :=
  let extract_dir := pathJoin args.dest (stem (basename safe_fname))
  if env.extractDirExists && !args.forceReextract then
    [MainEv.alreadyExtracted extract_dir]
  else
    (if env.extractDirExists && args.forceReextract then
        [MainEv.cleanFolder extract_dir]
      else []) ++
    (MainEv.extractCall zip_path extract_dir ::
      (if env.extractOk then [MainEv.extracted extract_dir]
        else [MainEv.extractError safe_fname]))

/-- Lines 175-195 of `main`: processing of one URL. An empty sanitised name
is reported and the URL skipped; a failing download is reported and the
extraction phase of this URL is skipped (`continue`). -/
def processUrl (args : Args) (env : UrlEnv) (url : String) : List MainEv :=
  let fname := decodedNameOfUrl url
  let safe_fname := sanitizeFileName fname
  if safe_fname = "" then [MainEv.invalidFilename fname]
  else
    let zip_path := pathJoin args.dest safe_fname
    if env.zipExists && args.skipExisting then
      MainEv.skippedExisting safe_fname :: extractPhase args env zip_path safe_fname
    else if env.downloadOk then
      MainEv.downloadStart url zip_path :: extractPhase args env zip_path safe_fname
    else
      [MainEv.downloadStart url zip_path, MainEv.downloadFailed safe_fname]

/-- The embedding of `main` after argument parsing (lines 159-211): the
discovery either raises (report, exit 1), yields no links (report, exit 0),
or yields the list, each URL of which is processed in order; normal
completion exits 0. -/
def mainRun (args : Args) (discovery : Except String (List String))
    (env : String → UrlEnv) : List MainEv × Nat :=
  match discovery with
  | Except.error _ => ([MainEv.scanIndex args.baseUrl, MainEv.errorDiscovery], 1)
  | Except.ok [] => ([MainEv.scanIndex args.baseUrl, MainEv.noFiles], 0)
  | Except.ok urls =>
      (MainEv.scanIndex args.baseUrl :: MainEv.foundCount urls.length ::
        (urls.map (fun u => processUrl args (env u) u)).join, 0)

/-- The property asserted by claim C7 of the sanitised filename of a URL: a
nonempty sanitised name is a single normal path component (its parts are
just the name itself, which is not a parent-directory traversal), so that
joining it to the destination root lands directly inside that root. -/
def directChildName (url : String) : Prop :=
  sanitizedNameOfUrl url ≠ "" →
    pathParts (sanitizedNameOfUrl url) = [sanitizedNameOfUrl url] ∧
    sanitizedNameOfUrl url ≠ ".."

/-- Counterexample to C7 as stated: percent-decoding happens before the
invalid-character filter, and neither `/` nor `.` is in the removed set, so
the URL whose last path segment is `%2e%2e%2fevil.zip` yields the sanitised
name `../evil.zip`; its path has two components of which the first is the
parent-directory traversal, so `dest / name` is not a direct child of the
destination root and resolves outside of it. -/
theorem c7_counterexample :
    sanitizedNameOfUrl "http://h/%2e%2e%2fevil.zip" = "../evil.zip" ∧
    pathParts "../evil.zip" = [ "..", "evil.zip" ] ∧
    ¬ directChildName "http://h/%2e%2e%2fevil.zip" := by
  refine ⟨by decide, by decide, ?_⟩
  intro h
  obtain ⟨h1, _⟩ := h (by decide)
  exact absurd h1 (by decide)

/-- Unfolding of `processUrl` with its let bindings expanded. -/
theorem processUrl_eq (args : Args) (env : UrlEnv) (url : String) :
    processUrl args env url =
      if sanitizeFileName (decodedNameOfUrl url) = "" then
        [MainEv.invalidFilename (decodedNameOfUrl url)]
      else if env.zipExists && args.skipExisting then
        MainEv.skippedExisting (sanitizeFileName (decodedNameOfUrl url)) ::
          extractPhase args env
            (pathJoin args.dest (sanitizeFileName (decodedNameOfUrl url)))
            (sanitizeFileName (decodedNameOfUrl url))
      else if env.downloadOk then
        MainEv.downloadStart url
            (pathJoin args.dest (sanitizeFileName (decodedNameOfUrl url))) ::
          extractPhase args env
            (pathJoin args.dest (sanitizeFileName (decodedNameOfUrl url)))
            (sanitizeFileName (decodedNameOfUrl url))
      else
        [MainEv.downloadStart url
            (pathJoin args.dest (sanitizeFileName (decodedNameOfUrl url))),
          MainEv.downloadFailed (sanitizeFileName (decodedNameOfUrl url))] := rfl

theorem extractPhase_no_downloadStart (args : Args) (env : UrlEnv)
    (z s u p : String) : MainEv.downloadStart u p ∉ extractPhase args env z s := by
  unfold extractPhase
  split_ifs <;> simp

theorem extractPhase_no_downloadFailed (args : Args) (env : UrlEnv)
    (z s n : String) : MainEv.downloadFailed n ∉ extractPhase args env z s := by
  unfold extractPhase
  split_ifs <;> simp

/-- C7 (amended): for every discovered URL, the path handed to the
downloader is the destination root joined (with `pathlib` semantics) with
the sanitised filename — the percent-decoded last path segment of the URL
with the characters of line 180 removed and surrounding whitespace stripped
— and when the sanitised name is empty, the error is reported for that URL
and it is skipped. (The counterexample forces dropping the "direct child of
dest, never outside" part: percent-decoding can introduce `/` and `..`
segments that survive sanitisation, so the joined path may lie outside the
destination root.) -/
theorem c7_download_path_is_join_of_sanitized_name (args : Args)
    (env : UrlEnv) (url : String) :
    (sanitizedNameOfUrl url = "" →
        processUrl args env url = [MainEv.invalidFilename (decodedNameOfUrl url)]) ∧
    (∀ u p, MainEv.downloadStart u p ∈ processUrl args env url →
        u = url ∧ p = pathJoin args.dest (sanitizedNameOfUrl url)) := by
  unfold sanitizedNameOfUrl
  constructor
  · intro hempty
    rw [processUrl_eq, if_pos hempty]
  · intro u p hmem
    rw [processUrl_eq] at hmem
    by_cases hemp : sanitizeFileName (decodedNameOfUrl url) = ""
    · rw [if_pos hemp] at hmem
      simp at hmem
    · rw [if_neg hemp] at hmem
      by_cases hskip : (env.zipExists && args.skipExisting) = true
      · rw [if_pos hskip] at hmem
        rcases List.mem_cons.mp hmem with hh | hh
        · exact absurd hh (by simp)
        · exact absurd hh (extractPhase_no_downloadStart args env _ _ u p)
      · rw [if_neg hskip] at hmem
        by_cases hok : env.downloadOk = true
        · rw [if_pos hok] at hmem
          rcases List.mem_cons.mp hmem with hh | hh
          · injection hh with hu hp
            exact ⟨hu, hp⟩
          · exact absurd hh (extractPhase_no_downloadStart args env _ _ u p)
        · rw [if_neg hok] at hmem
          rcases List.mem_cons.mp hmem with hh | hh
          · injection hh with hu hp
            exact ⟨hu, hp⟩
          · simp at hh

/-- Witness for C7 (amended): the URL whose last segment decodes to the
all-invalid name loses every character to sanitisation; the URL is reported
and skipped. -/
theorem c7_download_path_is_join_of_sanitized_name_witness :
    processUrl ⟨ "http://h/", "dest", false, false ⟩ ⟨ false, true, false, true ⟩
        "http://h/%3C%3E" = [MainEv.invalidFilename "<>"] := by
  have h := (c7_download_path_is_join_of_sanitized_name
    ⟨ "http://h/", "dest", false, false ⟩ ⟨ false, true, false, true ⟩
    "http://h/%3C%3E").1 (by decide)
  rw [h]
  decide

theorem join_map_decomp {α β : Type} (f : α → List β) :
    ∀ (l : List α) (x : α), x ∈ l → ∃ s t, (l.map f).join = s ++ f x ++ t := by
  intro l
  induction l with
  | nil =>
    intro x hx
    exact absurd hx (List.not_mem_nil x)
  | cons a rest ih =>
    intro x hx
    rcases List.mem_cons.mp hx with rfl | hx'
    · exact ⟨[], (rest.map f).join, by simp⟩
    · obtain ⟨s, t, hst⟩ := ih x hx'
      exact ⟨f a ++ s, t, by simp [hst]⟩

theorem processUrl_fail_no_extract (args : Args) (e : UrlEnv) (url n : String)
    (h : MainEv.downloadFailed n ∈ processUrl args e url) :
    ∀ z d, MainEv.extractCall z d ∉ processUrl args e url := by
  intro z d
  rw [processUrl_eq] at h ⊢
  by_cases hemp : sanitizeFileName (decodedNameOfUrl url) = ""
  · rw [if_pos hemp] at h
    simp at h
  · rw [if_neg hemp] at h ⊢
    by_cases hskip : (e.zipExists && args.skipExisting) = true
    · rw [if_pos hskip] at h
      rcases List.mem_cons.mp h with hh | hh
      · exact absurd hh (by simp)
      · exact absurd hh (extractPhase_no_downloadFailed args e _ _ n)
    · rw [if_neg hskip] at h ⊢
      by_cases hok : e.downloadOk = true
      · rw [if_pos hok] at h
        rcases List.mem_cons.mp h with hh | hh
        · exact absurd hh (by simp)
        · exact absurd hh (extractPhase_no_downloadFailed args e _ _ n)
      · rw [if_neg hok] at h ⊢
        simp

/-- C8: in a successfully discovered batch, every URL of the list is
processed — its full per-URL event block occurs inside the run's trace, no
matter how the other URLs fare — and whenever the download of a URL fails
(after the retries), the failure is logged as its `downloadFailed` event and
that URL's block contains no extraction call: its extraction step is
skipped while the batch continues. -/
theorem c8_download_failure_skips_extraction_but_batch_continues
    (args : Args) (env : String → UrlEnv) (urls : List String) (url : String)
    (hmem : url ∈ urls) :
    (∃ s t, (mainRun args (Except.ok urls) env).1 =
        s ++ processUrl args (env url) url ++ t) ∧
    (∀ n, MainEv.downloadFailed n ∈ processUrl args (env url) url →
        ∀ z d, MainEv.extractCall z d ∉ processUrl args (env url) url) := by
  constructor
  · cases urls with
    | nil => exact absurd hmem (List.not_mem_nil url)
    | cons a rest =>
      obtain ⟨s, t, hst⟩ :=
        join_map_decomp (fun x => processUrl args (env x) x) (a :: rest) url hmem
      refine ⟨MainEv.scanIndex args.baseUrl ::
        MainEv.foundCount (a :: rest).length :: s, t, ?_⟩
      show MainEv.scanIndex args.baseUrl :: MainEv.foundCount (a :: rest).length ::
        ((a :: rest).map (fun x => processUrl args (env x) x)).join = _
      rw [hst]
      rfl
  · intro n hn
    exact processUrl_fail_no_extract args (env url) url n hn

/-- Witness for C8: a two-URL batch whose downloads all fail still contains
the first URL's block, and that block has no extraction call. -/
theorem c8_download_failure_skips_extraction_but_batch_continues_witness :
    (∃ s t, (mainRun ⟨ "b", "d", false, false ⟩
        (Except.ok [ "http://h/u1.zip", "http://h/u2.zip" ])
        (fun _ => ⟨ false, false, false, true ⟩)).1 =
      s ++ processUrl ⟨ "b", "d", false, false ⟩ ⟨ false, false, false, true ⟩
        "http://h/u1.zip" ++ t) ∧
    (∀ n, MainEv.downloadFailed n ∈ processUrl ⟨ "b", "d", false, false ⟩
        ⟨ false, false, false, true ⟩ "http://h/u1.zip" →
      ∀ z d, MainEv.extractCall z d ∉ processUrl ⟨ "b", "d", false, false ⟩
        ⟨ false, false, false, true ⟩ "http://h/u1.zip") :=
  c8_download_failure_skips_extraction_but_batch_continues
    ⟨ "b", "d", false, false ⟩ (fun _ => ⟨ false, false, false, true ⟩)
    [ "http://h/u1.zip", "http://h/u2.zip" ] "http://h/u1.zip" (by decide)

/-- C9: the process exits with code 1 exactly when link discovery itself
raised; a successful discovery of zero links reports "no files" and exits 0
without invoking the downloader at all; and a successful discovery always
exits 0, regardless of how the per-URL downloads and extractions fare. -/
theorem c9_exit_code_one_iff_discovery_failed (args : Args)
    (discovery : Except String (List String)) (env : String → UrlEnv) :
    ((mainRun args discovery env).2 = 1 ↔ ∃ e, discovery = Except.error e) ∧
    (discovery = Except.ok [] →
        (mainRun args discovery env).1 = [MainEv.scanIndex args.baseUrl, MainEv.noFiles] ∧
        (mainRun args discovery env).2 = 0 ∧
        ∀ u p, MainEv.downloadStart u p ∉ (mainRun args discovery env).1) ∧
    (∀ urls, discovery = Except.ok urls → (mainRun args discovery env).2 = 0) := by
  rcases discovery with e | urls
  · refine ⟨⟨fun _ => ⟨e, rfl⟩, fun _ => rfl⟩, ?_, ?_⟩
    · intro h
      exact absurd h (by simp)
    · intro urls h
      exact absurd h (by simp)
  · cases urls with
    | nil =>
      refine ⟨?_, ?_, ?_⟩
      · constructor
        · intro h
          exact absurd h (by simp [mainRun])
        · rintro ⟨e, he⟩
          exact absurd he (by simp)
      · intro _
        refine ⟨rfl, rfl, ?_⟩
        intro u p hm
        simp [mainRun] at hm
      · intro urls h
        injection h with h2
        subst h2
        rfl
    | cons a rest =>
      refine ⟨?_, ?_, ?_⟩
      · constructor
        · intro h
          exact absurd h (by simp [mainRun])
        · rintro ⟨e, he⟩
          exact absurd he (by simp)
      · intro h
        injection h with h2
        exact absurd h2 (by simp)
      · intro urls h
        injection h with h2
        subst h2
        rfl

/-- Witness for C9: a discovery that returns no links exits 0 with only the
two report lines and no download invocation. -/
theorem c9_exit_code_one_iff_discovery_failed_witness :
    (mainRun ⟨ "b", "d", false, false ⟩ (Except.ok [])
        (fun _ => ⟨ false, true, false, true ⟩)).1 =
      [MainEv.scanIndex "b", MainEv.noFiles] ∧
    (mainRun ⟨ "b", "d", false, false ⟩ (Except.ok [])
        (fun _ => ⟨ false, true, false, true ⟩)).2 = 0 := by
  have h := (c9_exit_code_one_iff_discovery_failed ⟨ "b", "d", false, false ⟩
    (Except.ok []) (fun _ => ⟨ false, true, false, true ⟩)).2.1 rfl
  exact ⟨h.1, h.2.1⟩

/-! ### Link discovery (`ZipLinkParser` and `list_zip_urls`, lines 20-60) -/

/-- A start tag event delivered by the HTML parsing collaborator
(`html.parser.HTMLParser`): the tag name and its attribute list, each
attribute value possibly absent. -/
structure StartTag where
  tag : String
  attrs : List (String × Option String)

/-- The embedding of `dict(attrs)` lookup: the LAST binding of the key wins
(later dict insertions overwrite earlier ones). -/
def dictFind (attrs : List (String × Option String)) (key : String) :
    Option (Option String) :=
  match attrs with
  | [] => none
  | (k, v) :: rest =>
    match dictFind rest key with
    | some r => some r
    | none => if k = key then some v else none

/-- The embedding of `dict(attrs).get("href")` of line 29: an absent key and
a key bound to `None` both yield `None`. -/
def dictGet (attrs : List (String × Option String)) (key : String) :
    Option String :=
  match dictFind attrs key with
  | some (some v) => some v
  | _ => none

/-- Lowercasing as `str.lower()` on the ASCII range. -/
def lowerStr (s : String) : String := String.mk (s.data.map Char.toLower)

/-- Boolean `str.endswith`. -/
def endsWithStr (s suf : String) : Bool :=
  decide (s.data.reverse.take suf.data.length = suf.data.reverse)

/-- The embedding of `ZipLinkParser.handle_starttag` (lines 26-31): ignore
non-anchor tags, look up `href`, and when it is truthy (non-`None`,
non-empty) and lowercases to a `.zip` suffix, append its stripped value to
the accumulated links. -/
def handle_starttag (links : List String) (st : StartTag) : List String :=
  if lowerStr st.tag ≠ "a" then links
  else
    match dictGet st.attrs "href" with
    | none => links
    | some href =>
      if !(href == "") && endsWithStr (lowerStr href) ".zip" then
        links ++ [stripStr href]
      else links

/-- One step of the de-duplicating resolution loop of lines 53-59. The state
is the `seen` set (as the list of its elements) and the `urls` output list;
`full = urljoin(base_url, href)`. -/
def dedupStep (join : String → String → String) (base : String)
    (st : List String × List String) (href : String) :
    List String × List String :=
  let full := join base href
  if memStr full st.1 then st else (full :: st.1, st.2 ++ [full])

/-- The embedding of `list_zip_urls` (lines 48-60), parameterised by the
collaborator `urljoin` and by the start-tag event stream that the HTML
parser delivers for the fetched page: feed every start tag to the parser,
then resolve each collected href against the base URL, de-duplicating by
exact string match of the resolved URL while preserving first-seen order. -/
def list_zip_urls (join : String → String → String) (base : String)
    (tags : List StartTag) : List String :=
  ((tags.foldl handle_starttag []).foldl (dedupStep join base) ([], [])).2

/-- Specification-side selector, following the words of claim C3: the href
value of an `<a>` tag, when that value ends in `.zip` case-insensitively. -/
def anchorZipHref (st : StartTag) : Option String :=
  if lowerStr st.tag = "a" then
    match dictGet st.attrs "href" with
    | some h => if endsWithStr (lowerStr h) ".zip" then some h else none
    | none => none
  else none

/-- Specification-side de-duplication keeping the first occurrence. -/
def dedupFirstAux (seen : List String) : List String → List String
  | [] => []
  | x :: xs =>
    if memStr x seen then dedupFirstAux seen xs
    else x :: dedupFirstAux (x :: seen) xs

/-- The URL list described by claim C3: resolve against the base URL each
anchor href ending in `.zip`, de-duplicate by exact string match of the
resolved URL, keep first-occurrence order. -/
def specZipUrls (join : String → String → String) (base : String)
    (tags : List StartTag) : List String :=
  dedupFirstAux [] ((tags.filterMap anchorZipHref).map (join base))

theorem zip_guard_eq (h : String) :
    (!(h == "") && endsWithStr (lowerStr h) ".zip") =
      endsWithStr (lowerStr h) ".zip" := by
  by_cases hne : h = ""
  · subst hne
    decide
  · simp [hne]

theorem handle_starttag_eq (links : List String) (st : StartTag) :
    handle_starttag links st =
      links ++ ((anchorZipHref st).map stripStr).toList := by
  unfold handle_starttag anchorZipHref
  by_cases ht : lowerStr st.tag = "a"
  · rw [if_neg (not_not_intro ht), if_pos ht]
    cases hd : dictGet st.attrs "href" with
    | none => simp
    | some h =>
      dsimp only
      rw [zip_guard_eq h]
      by_cases he : endsWithStr (lowerStr h) ".zip" = true
      · rw [if_pos he, if_pos he]
        simp
      · rw [if_neg he, if_neg he]
        simp
  · rw [if_pos ht, if_neg ht]
    simp

theorem parser_links_eq (tags : List StartTag) :
    ∀ links, tags.foldl handle_starttag links =
      links ++ tags.filterMap (fun st => (anchorZipHref st).map stripStr) := by
  induction tags with
  | nil =>
    intro links
    simp
  | cons st rest ih =>
    intro links
    rw [List.foldl_cons, handle_starttag_eq, ih, List.filterMap_cons]
    cases anchorZipHref st <;> simp

theorem filterMap_trimfix (tags : List StartTag)
    (htrim : ∀ st ∈ tags, (anchorZipHref st).map stripStr = anchorZipHref st) :
    tags.filterMap (fun st => (anchorZipHref st).map stripStr) =
      tags.filterMap anchorZipHref := by
  induction tags with
  | nil => rfl
  | cons st rest ih =>
    rw [List.filterMap_cons, List.filterMap_cons, htrim st (by simp),
      ih (fun x hx => htrim x (List.mem_cons_of_mem _ hx))]

theorem memStr_append (x : String) (l1 l2 : List String) :
    memStr x (l1 ++ l2) = (memStr x l1 || memStr x l2) := by
  induction l1 with
  | nil => simp [memStr]
  | cons y ys ih => simp [memStr, ih, Bool.or_assoc]

theorem dedupFirstAux_congr (l : List String) :
    ∀ s1 s2, (∀ x, memStr x s1 = memStr x s2) →
      dedupFirstAux s1 l = dedupFirstAux s2 l := by
  induction l with
  | nil =>
    intro s1 s2 h
    rfl
  | cons x xs ih =>
    intro s1 s2 h
    unfold dedupFirstAux
    rw [h x]
    by_cases hx : memStr x s2 = true
    · rw [if_pos hx, if_pos hx]
      exact ih s1 s2 h
    · rw [if_neg hx, if_neg hx]
      rw [ih (x :: s1) (x :: s2) (fun y => by simp [memStr, h y])]

theorem dedup_foldl_eq (join : String → String → String) (base : String) :
    ∀ (links : List String) (seen urls : List String),
      (∀ x, memStr x seen = memStr x urls) →
      (links.foldl (dedupStep join base) (seen, urls)).2 =
        urls ++ dedupFirstAux seen (links.map (join base)) := by
  intro links
  induction links with
  | nil =>
    intro seen urls h
    simp [dedupFirstAux]
  | cons href rest ih =>
    intro seen urls h
    rw [List.foldl_cons, List.map_cons]
    unfold dedupFirstAux
    by_cases hx : memStr (join base href) seen = true
    · rw [if_pos hx]
      have hstep : dedupStep join base (seen, urls) href = (seen, urls) := by
        unfold dedupStep
        simp only
        rw [if_pos hx]
      rw [hstep]
      exact ih seen urls h
    · rw [if_neg hx]
      have hstep : dedupStep join base (seen, urls) href =
          (join base href :: seen, urls ++ [join base href]) := by
        unfold dedupStep
        simp only
        rw [if_neg hx]
      rw [hstep]
      rw [ih (join base href :: seen) (urls ++ [join base href])
        (fun y => by simp [memStr, memStr_append, h y, Bool.or_comm])]
      simp

/-- C3: for every base URL and every start-tag stream of the fetched page,
link discovery returns exactly the claimed list — the anchor href values
ending in `.zip` case-insensitively, resolved against the base URL,
de-duplicated by exact string match of the resolved URL, in first-occurrence
order, everything else ignored. (The code strips surrounding whitespace off
each collected href before resolving it, so the statement assumes the
relevant href values carry no surrounding whitespace; a raw href with a
trailing blank would not end in `.zip` anyway.) -/
theorem c3_discovery_returns_resolved_deduped_zip_links
    (join : String → String → String) (base : String) (tags : List StartTag)
    (htrim : ∀ st ∈ tags, (anchorZipHref st).map stripStr = anchorZipHref st) :
    list_zip_urls join base tags = specZipUrls join base tags := by
  unfold list_zip_urls specZipUrls
  rw [parser_links_eq tags [], filterMap_trimfix tags htrim]
  simp only [List.nil_append]
  exact dedup_foldl_eq join base _ [] [] (fun x => rfl)

/-- Witness for C3 at the scenario of the spec: `game1.zip`, `GAME1.ZIP`
(different case, different link), a `readme.txt`, a non-anchor tag and a
repeated link give exactly the two resolved zip URLs, in first-seen order. -/
theorem c3_discovery_returns_resolved_deduped_zip_links_witness :
    list_zip_urls (fun b h => b ++ h) "http://x/"
        [⟨ "a", [("href", some "game1.zip")]⟩,
         ⟨ "a", [("href", some "GAME1.ZIP")]⟩,
         ⟨ "a", [("href", some "readme.txt")]⟩,
         ⟨ "p", [("href", some "decoy.zip")]⟩,
         ⟨ "a", [("href", some "game1.zip")]⟩] =
      specZipUrls (fun b h => b ++ h) "http://x/"
        [⟨ "a", [("href", some "game1.zip")]⟩,
         ⟨ "a", [("href", some "GAME1.ZIP")]⟩,
         ⟨ "a", [("href", some "readme.txt")]⟩,
         ⟨ "p", [("href", some "decoy.zip")]⟩,
         ⟨ "a", [("href", some "game1.zip")]⟩] ∧
    specZipUrls (fun b h => b ++ h) "http://x/"
        [⟨ "a", [("href", some "game1.zip")]⟩,
         ⟨ "a", [("href", some "GAME1.ZIP")]⟩,
         ⟨ "a", [("href", some "readme.txt")]⟩,
         ⟨ "p", [("href", some "decoy.zip")]⟩,
         ⟨ "a", [("href", some "game1.zip")]⟩] =
      [ "http://x/game1.zip", "http://x/GAME1.ZIP" ] :=
  ⟨c3_discovery_returns_resolved_deduped_zip_links (fun b h => b ++ h)
      "http://x/" _ (by decide),
    by decide⟩

end GrabArchive
